import Mathlib

/-!
Verification development for the sequence-pattern parsing and
frame-gap/consistency detection engine of vfxvox-pipeline-utils
(src/vfxvox_pipeline_utils/sequences/scanner.py,
 src/vfxvox_pipeline_utils/sequences/validator.py,
 src/vfxvox_pipeline_utils/core/validators.py).

Strings are modelled as List Char.  Filesystem and image-metadata I/O are
modelled by an explicit oracle structure (FS below); Python exceptions at
the I/O boundary are modelled as Boolean/variant outcomes of the oracle,
and a Python function that catches an exception is modelled by the
corresponding total Lean function.
-/

namespace VfxVox

/-- Numeric value of a decimal digit string, as Python int() computes it
for a string of digits (scanner.py uses int(match.group(1))). -/
def digitsToNat (ds : List Char) : Nat :=
  ds.foldl (fun a c => 10 * a + (c.toNat - '0'.toNat)) 0

/-- Decimal representation of a natural number as Python str() renders it:
most-significant digit first, no leading zeros, and the single digit zero
for zero. -/
def natRepr (n : Nat) : List Char :=
  if _ : n < 10 then [Nat.digitChar n]
  else natRepr (n / 10) ++ [Nat.digitChar (n % 10)]
decreasing_by exact Nat.div_lt_self (by omega) (by omega)

/-- Decimal representation of an integer as Python str() renders it:
a leading minus sign for negative values. -/
def pyIntRepr (i : Int) : List Char :=
  if i < 0 then '-' :: natRepr i.natAbs else natRepr i.natAbs

/-- Python str.zfill(width): left-pad with zero characters to the given
width, inserting the padding after a leading sign character; a string at
least width long is returned unchanged. -/
def pyZfill (s : List Char) (width : Nat) : List Char :=
  if width ≤ s.length then s
  else
    match s with
    | [] => List.replicate width '0'
    | c :: rest =>
        if c = '-' ∨ c = '+' then
          c :: (List.replicate (width - s.length) '0' ++ rest)
        else
          List.replicate (width - s.length) '0' ++ (c :: rest)

/-- The three recognized sequence-pattern notations
(scanner.py SequenceScanner._parse_pattern). -/
inductive PatternType where
  | printf
  | hash
  | range
  deriving DecidableEq, Repr

/-- Result of SequenceScanner._parse_pattern: pattern kind, zero-padding
width, literal filename parts before and after the notation construct, and
for range-style the two declared bounds. -/
structure ParsedPattern where
  patternType : PatternType
  padding : Nat
  baseName : List Char
  extension : List Char
  frameStart : Option Nat := none
  frameEnd : Option Nat := none
  deriving DecidableEq, Repr

/-- The typed exception raised by SequenceScanner._parse_pattern
(core/exceptions.py InvalidFormatError): message, offending format value
and the list of supported format alternatives. -/
structure InvalidFormatError where
  message : List Char
  format : List Char
  supportedFormats : List (List Char)
  deriving DecidableEq, Repr

/-- Match attempt of the regex fragment percent-digits-d at the head of a
suffix of the filename: Python re scans for the percent sign, then a
greedy run of digits which must be followed by the letter d.  Returns the
digit run and the remainder after the construct. -/
def printfAt : List Char → Option (List Char × List Char)
  | '%' :: rest =>
      let ds := rest.takeWhile Char.isDigit
      match rest.dropWhile Char.isDigit with
      | 'd' :: tail => some (ds, tail)
      | _ => none
  | _ => none

/-- Leftmost match of the printf construct, as re.search finds it:
returns (prefixPart, paddingDigits, suffixPart). -/
def searchPrintf : List Char → Option (List Char × List Char × List Char)
  | [] => none
  | c :: cs =>
      match printfAt (c :: cs) with
      | some (ds, tail) => some ([], ds, tail)
      | none => (searchPrintf cs).map (fun r => (c :: r.1, r.2.1, r.2.2))

/-- Leftmost maximal run of hash characters, as re.search with a greedy
plus finds it: returns (prefixPart, runLength, suffixPart). -/
def searchHash : List Char → Option (List Char × Nat × List Char)
  | [] => none
  | c :: cs =>
      if c = '#' then
        let run := (c :: cs).takeWhile (· = '#')
        some ([], run.length, (c :: cs).dropWhile (· = '#'))
      else
        (searchHash cs).map (fun r => (c :: r.1, r.2.1, r.2.2))

/-- Match attempt of the regex fragment bracket-digits-dash-digits-bracket
at the head of a suffix: both digit runs are greedy and nonempty.
Returns (firstDigits, secondDigits, remainder). -/
def rangeAt : List Char → Option (List Char × List Char × List Char)
  | '[' :: rest =>
      let d1 := rest.takeWhile Char.isDigit
      if d1.isEmpty then none
      else
        match rest.dropWhile Char.isDigit with
        | '-' :: rest2 =>
            let d2 := rest2.takeWhile Char.isDigit
            if d2.isEmpty then none
            else
              match rest2.dropWhile Char.isDigit with
              | ']' :: tail => some (d1, d2, tail)
              | _ => none
        | _ => none
  | _ => none

/-- Leftmost match of the range construct, as re.search finds it:
returns (prefixPart, firstDigits, secondDigits, suffixPart). -/
def searchRange : List Char → Option (List Char × List Char × List Char × List Char)
  | [] => none
  | c :: cs =>
      match rangeAt (c :: cs) with
      | some (d1, d2, tail) => some ([], d1, d2, tail)
      | none => (searchRange cs).map (fun r => (c :: r.1, r.2.1, r.2.2.1, r.2.2.2))

/-- Supported format alternatives listed by the InvalidFormatError raised
in SequenceScanner._parse_pattern. -/
def supportedFormatsList : List (List Char) :=
  ["printf (%04d)".toList, "hash (####)".toList, "range ([1001-1100])".toList]

/-- SequenceScanner._parse_pattern: probe the filename for the printf
construct, then the hash construct, then the range construct; the first
probe that matches anywhere determines the pattern; if none matches,
raise InvalidFormatError. -/
def parsePattern (filename : List Char) : Except InvalidFormatError ParsedPattern :=
  match searchPrintf filename with
  | some (pre, ds, post) =>
      .ok { patternType := .printf
            padding := digitsToNat ds
            baseName := pre
            extension := post }
  | none =>
  match searchHash filename with
  | some (pre, runLen, post) =>
      .ok { patternType := .hash
            padding := runLen
            baseName := pre
            extension := post }
  | none =>
  match searchRange filename with
  | some (pre, d1, d2, post) =>
      .ok { patternType := .range
            padding := d1.length
            baseName := pre
            extension := post
            frameStart := some (digitsToNat d1)
            frameEnd := some (digitsToNat d2) }
  | none =>
      .error { message := "Unrecognized pattern format: ".toList ++ filename
               format := filename
               supportedFormats := supportedFormatsList }

/-- Backtracking step of the generated frame regex: the candidate digit
group is held reversed in revds and the rest of the filename in after.
Python re first tries the whole greedy digit run as the group; if the
literal extension does not follow, it gives back one digit at a time.
Returns the matched group (in reading order) on success. -/
def tryGroup (ext : List Char) : List Char → List Char → Option (List Char)
  | [], _ => none
  | d :: revRest, after =>
      if ext.isPrefixOf after then some ((d :: revRest).reverse)
      else tryGroup ext revRest (d :: after)

/-- The matcher generated by SequenceScanner._parse_pattern, applied with
re.match semantics: the regex is the escaped base name, a nonempty greedy
digit group, then the escaped extension; re.match anchors at the start of
the candidate filename but not at its end.  Returns the captured digit
group on success. -/
def frameRegexMatch (base ext name : List Char) : Option (List Char) :=
  if base.isPrefixOf name then
    tryGroup ext ((name.drop base.length).takeWhile Char.isDigit).reverse
      ((name.drop base.length).dropWhile Char.isDigit)
  else none

/-- Offset (lowest string index) at which the printf construct matches,
if it matches at all. -/
def printfOffset (cs : List Char) : Option Nat :=
  (searchPrintf cs).map (fun r => r.1.length)

/-- Offset (lowest string index) at which a hash run matches, if any. -/
def hashOffset (cs : List Char) : Option Nat :=
  (searchHash cs).map (fun r => r.1.length)

/-- Offset (lowest string index) at which the range construct matches,
if any. -/
def rangeOffset (cs : List Char) : Option Nat :=
  (searchRange cs).map (fun r => r.1.length)

/-- Outcome of the metadata-read block in
SequenceScanner._read_frame_metadata: no handler registered for the
extension, an exception raised anywhere inside the try block, or a
metadata dictionary whose resolution and bit_depth entries may each be
absent. -/
inductive MetaOutcome where
  | noHandler
  | raised
  | ok (resolution : Option (Nat × Nat)) (bitDepth : Option Nat)
  deriving DecidableEq, Repr

/-- One entry returned by Path.iterdir on the base directory: the entry
name and whether is_file holds for it. -/
structure DirEntry where
  name : List Char
  isFile : Bool
  deriving DecidableEq, Repr

/-- Filesystem and metadata oracle for one scan.  Python exceptions at
the I/O boundary are encoded in the codomains: readByte is false when
open/read raises, readMeta is MetaOutcome.raised when the handler lookup
or metadata read raises. -/
structure FS where
  baseDirExists : Bool
  entries : List DirEntry
  fileExists : List Char → Bool
  readByte : List Char → Bool
  readMeta : List Char → MetaOutcome

/-- FrameInfo dataclass of scanner.py: per-frame record produced by
scan_frame. -/
structure FrameInfo where
  frameNumber : Int
  filePath : List Char
  fileOnDisk : Bool
  readable : Bool
  resolution : Option (Nat × Nat) := none
  bitDepth : Option Nat := none
  format : Option (List Char) := none
  deriving DecidableEq, Repr

/-- Frame-number field of the generated filename in
SequenceScanner.scan_frame: str(n).zfill(padding) when padding is
positive, plain str(n) otherwise. -/
def renderFrameStr (padding : Nat) (n : Int) : List Char :=
  if padding > 0 then pyZfill (pyIntRepr n) padding else pyIntRepr n

/-- Python str.lstrip with the dot character: remove all leading dots. -/
def lstripDot (s : List Char) : List Char :=
  s.dropWhile (· = '.')

/-- Filename generated for a frame number in SequenceScanner.scan_frame:
the base name, the rendered frame-number field, then the extension. -/
def frameFilename (pat : ParsedPattern) (n : Int) : List Char :=
  pat.baseName ++ renderFrameStr pat.padding n ++ pat.extension

/-- The FrameInfo constructed by SequenceScanner.scan_frame before
metadata enrichment: existence from the oracle, readability only when the
file exists and the one-byte read does not fail (a failing read is caught
and recorded as unreadable), and the format name derived from the
extension with leading dots stripped and letters lowered. -/
def scanFrameBase (fs : FS) (pat : ParsedPattern) (n : Int) : FrameInfo :=
  { frameNumber := n
    filePath := frameFilename pat n
    fileOnDisk := fs.fileExists (frameFilename pat n)
    readable :=
      if fs.fileExists (frameFilename pat n) then fs.readByte (frameFilename pat n)
      else false
    format :=
      if pat.extension.isEmpty then none
      else some ((lstripDot pat.extension).map Char.toLower) }

/-- SequenceScanner._read_frame_metadata: best-effort enrichment; a
missing handler or any exception inside the try block leaves the record
unchanged. -/
def readFrameMetadata (fs : FS) (fi : FrameInfo) : FrameInfo :=
  match fs.readMeta fi.filePath with
  | .ok res bd => { fi with resolution := res, bitDepth := bd }
  | .noHandler => fi
  | .raised => fi

/-- SequenceScanner.scan_frame: build the base record and enrich it with
metadata only when the frame is readable. -/
def scan_frame (fs : FS) (pat : ParsedPattern) (n : Int) : FrameInfo :=
  if (scanFrameBase fs pat n).readable then readFrameMetadata fs (scanFrameBase fs pat n)
  else scanFrameBase fs pat n

/-- SequenceScanner.detect_frames: empty when the base directory does not
exist; otherwise every regular directory entry whose name matches the
generated frame regex contributes the integer value of its captured digit
group, and the resulting numbers are sorted ascending. -/
def detect_frames (fs : FS) (pat : ParsedPattern) : List Int :=
  if !fs.baseDirExists then []
  else
    (((fs.entries.filter (·.isFile)).filterMap
        (fun e => frameRegexMatch pat.baseName pat.extension e.name)).map
        (fun ds => (digitsToNat ds : Int))).insertionSort (· ≤ ·)

/-- SequenceScanner.get_frame_range: the first and last detected frame
numbers, or none when no frames are detected. -/
def get_frame_range (fs : FS) (pat : ParsedPattern) : Option (Int × Int) :=
  match detect_frames fs pat with
  | [] => none
  | f :: rest => some (f, (f :: rest).getLast (by simp))

/-- SequenceScanner.scan_all: scan_frame for every detected frame number,
in detection (ascending) order. -/
def scan_all (fs : FS) (pat : ParsedPattern) : List FrameInfo :=
  (detect_frames fs pat).map (scan_frame fs pat)

/-- Structured values stored in ValidationIssue.details and
ValidationResult.metadata dictionaries. -/
inductive DetailValue where
  | int (n : Int)
  | intList (ns : List Int)
  | str (s : List Char)
  | res (r : Nat × Nat)
  | resMismatchList (ms : List (Int × (Nat × Nat) × (Nat × Nat)))
  | depthMismatchList (ms : List (Int × Nat × Nat))
  | noneVal
  deriving DecidableEq, Repr

/-- ValidationIssue dataclass of core/validators.py. -/
structure ValidationIssue where
  severity : List Char
  message : List Char
  location : Option (List Char) := none
  details : Option (List (List Char × DetailValue)) := none
  deriving DecidableEq, Repr

/-- ValidationResult dataclass of core/validators.py.  The timestamp
inserted into metadata by the dataclass post-init hook reads the wall
clock and is outside this model. -/
structure ValidationResult where
  passed : Bool
  issues : List ValidationIssue := []
  metadata : List (List Char × DetailValue) := []
  deriving DecidableEq, Repr

/-- Severity check performed by ValidationIssue post-init: only error,
warning and info are accepted. -/
def validSeverity (s : List Char) : Bool :=
  s = "error".toList || s = "warning".toList || s = "info".toList

/-- ValidationIssue construction including the post-init severity check:
an invalid severity raises a ValueError, modelled as Except.error. -/
def mkValidationIssue (severity message : List Char)
    (location : Option (List Char)) (details : Option (List (List Char × DetailValue))) :
    Except (List Char) ValidationIssue :=
  if validSeverity severity then
    .ok { severity := severity, message := message, location := location, details := details }
  else
    .error ("Invalid severity ".toList ++ severity)

/-- ValidationResult.add_issue: construct the issue (its post-init check
may raise, leaving the result untouched), append it, then flip passed to
false when the severity is error. -/
def add_issue (r : ValidationResult) (severity message : List Char)
    (location : Option (List Char) := none)
    (details : Option (List (List Char × DetailValue)) := none) :
    Except (List Char) ValidationResult :=
  match mkValidationIssue severity message location details with
  | .error e => .error e
  | .ok issue =>
      .ok { r with
            issues := r.issues ++ [issue],
            passed := if severity = "error".toList then false else r.passed }

/-- One add_issue call as seen by a caller that survives it: a successful
call yields the updated result, a raising call leaves the caller's result
unchanged. -/
def stepIssue (r : ValidationResult)
    (c : List Char × List Char × Option (List Char) × Option (List (List Char × DetailValue))) :
    ValidationResult :=
  match add_issue r c.1 c.2.1 c.2.2.1 c.2.2.2 with
  | .ok r' => r'
  | .error _ => r

/-- Internal add_issue call with the literal severity error: such a call
never raises. -/
def addErrorIssue (r : ValidationResult) (message : List Char)
    (location : Option (List Char))
    (details : Option (List (List Char × DetailValue))) : ValidationResult :=
  { r with
    issues := r.issues ++
      [{ severity := "error".toList, message := message,
         location := location, details := details }],
    passed := false }

/-- Internal add_issue call with the literal severity warning: such a
call never raises and leaves passed untouched. -/
def addWarningIssue (r : ValidationResult) (message : List Char)
    (location : Option (List Char)) : ValidationResult :=
  { r with issues := r.issues ++
      [{ severity := "warning".toList, message := message,
         location := location, details := none }] }

/-- Python repr of a list of integers, as an f-string renders it:
brackets around comma-space separated decimal values. -/
def reprIntList (ns : List Int) : List Char :=
  '[' :: List.intercalate ", ".toList (ns.map pyIntRepr) ++ [']']

/-- Python repr of a width-height tuple: parentheses around comma-space
separated decimal values. -/
def reprRes (r : Nat × Nat) : List Char :=
  '(' :: natRepr r.1 ++ ", ".toList ++ natRepr r.2 ++ [')']

/-- Python repr of one resolution-mismatch dictionary with keys frame,
expected and actual in insertion order. -/
def reprResMismatch (m : Int × (Nat × Nat) × (Nat × Nat)) : List Char :=
  '\x7b' :: "\x27frame\x27: ".toList ++ pyIntRepr m.1
    ++ ", \x27expected\x27: ".toList ++ reprRes m.2.1
    ++ ", \x27actual\x27: ".toList ++ reprRes m.2.2 ++ ['\x7d']

/-- Python repr of a list of resolution-mismatch dictionaries. -/
def reprResMismatchList (ms : List (Int × (Nat × Nat) × (Nat × Nat))) : List Char :=
  '[' :: List.intercalate ", ".toList (ms.map reprResMismatch) ++ [']']

/-- Python repr of one bit-depth-mismatch dictionary with keys frame,
expected and actual in insertion order. -/
def reprDepthMismatch (m : Int × Nat × Nat) : List Char :=
  '\x7b' :: "\x27frame\x27: ".toList ++ pyIntRepr m.1
    ++ ", \x27expected\x27: ".toList ++ natRepr m.2.1
    ++ ", \x27actual\x27: ".toList ++ natRepr m.2.2 ++ ['\x7d']

/-- Python repr of a list of bit-depth-mismatch dictionaries. -/
def reprDepthMismatchList (ms : List (Int × Nat × Nat)) : List Char :=
  '[' :: List.intercalate ", ".toList (ms.map reprDepthMismatch) ++ [']']

/-- Python min over a nonempty list of integers (the empty case is
unreachable in every use below, guarded exactly as the source guards it). -/
def pyMin : List Int → Int
  | [] => 0
  | x :: xs => xs.foldl min x

/-- Python max over a nonempty list of integers. -/
def pyMax : List Int → Int
  | [] => 0
  | x :: xs => xs.foldl max x

/-- Missing-frame set of SequenceValidator.check_missing_frames:
sorted(set(range(first, last + 1)) - set(frame_numbers)). -/
def missingOf (nums : List Int) : List Int :=
  (Finset.Icc (pyMin nums) (pyMax nums) \ nums.toFinset).sort (· ≤ ·)

/-- Message formatting of the missing-frame issue: the full explicit list
up to ten entries, the first ten as a sample plus the count beyond ten. -/
def missingMessage (missing : List Int) : List Char :=
  if missing.length > 10 then
    natRepr missing.length ++ " frames missing. Sample: ".toList
      ++ reprIntList (missing.take 10)
  else
    "Missing frames: ".toList ++ reprIntList missing

/-- The lo-hi range string used in the missing-frame issue location and
its expected_range detail. -/
def rangeStr (nums : List Int) : List Char :=
  pyIntRepr (pyMin nums) ++ ['-'] ++ pyIntRepr (pyMax nums)

/-- SequenceValidator.check_missing_frames: on a nonempty frame list,
compute the gaps between the minimum and maximum present frame numbers
and, when gaps exist, add one error issue whose message truncates past
ten entries while the structured details carry the full list. -/
def check_missing_frames (frames : List FrameInfo) (result : ValidationResult) :
    ValidationResult :=
  if frames.isEmpty then result
  else if (missingOf (frames.map (·.frameNumber))).isEmpty then result
  else
    addErrorIssue result (missingMessage (missingOf (frames.map (·.frameNumber))))
      (some ("frames ".toList ++ rangeStr (frames.map (·.frameNumber))))
      (some [("missing_count".toList,
               .int (missingOf (frames.map (·.frameNumber))).length),
             ("missing_frames".toList, .intList (missingOf (frames.map (·.frameNumber)))),
             ("expected_range".toList, .str (rangeStr (frames.map (·.frameNumber)))),
             ("found_count".toList, .int (frames.map (·.frameNumber)).toFinset.card)])

/-- Corrupted frame numbers of SequenceValidator.check_corrupted_frames:
frames that exist on disk but are not readable. -/
def corruptedOf (frames : List FrameInfo) : List Int :=
  (frames.filter (fun f => f.fileOnDisk && !f.readable)).map (·.frameNumber)

/-- Message formatting of the corrupted-frame issue with the ten-entry
truncation policy. -/
def corruptedMessage (corrupted : List Int) : List Char :=
  if corrupted.length > 10 then
    natRepr corrupted.length ++ " frames corrupted or unreadable. Sample: ".toList
      ++ reprIntList (corrupted.take 10)
  else
    "Corrupted or unreadable frames: ".toList ++ reprIntList corrupted

/-- SequenceValidator.check_corrupted_frames: when corrupted frames
exist, add one error issue with the ten-entry message truncation and full
structured details. -/
def check_corrupted_frames (frames : List FrameInfo) (result : ValidationResult) :
    ValidationResult :=
  if (corruptedOf frames).isEmpty then result
  else
    addErrorIssue result (corruptedMessage (corruptedOf frames)) (some "sequence".toList)
      (some [("corrupted_count".toList, .int (corruptedOf frames).length),
             ("corrupted_frames".toList, .intList (corruptedOf frames))])

/-- Frames carrying resolution information, projected to
(frame number, resolution), in list order, as
SequenceValidator.check_resolution_consistency filters them. -/
def resolutionFrames (frames : List FrameInfo) : List (Int × (Nat × Nat)) :=
  frames.filterMap (fun f => f.resolution.map (fun r => (f.frameNumber, r)))

/-- Mismatch triples of the later resolution-bearing frames against the
reference resolution, in list order, as the loop over
frames_with_res from index one builds them. -/
def resMismatchesAgainst (refRes : Nat × Nat) (rest : List (Int × (Nat × Nat))) :
    List (Int × (Nat × Nat) × (Nat × Nat)) :=
  rest.filterMap (fun p => if p.2 ≠ refRes then some (p.1, refRes, p.2) else none)

/-- Resolution mismatches against the first resolution-bearing frame:
(frame, expected, actual) triples in list order. -/
def resMismatches (frames : List FrameInfo) : List (Int × (Nat × Nat) × (Nat × Nat)) :=
  match resolutionFrames frames with
  | [] => []
  | (_, refRes) :: rest => resMismatchesAgainst refRes rest

/-- Message formatting of the resolution-mismatch issue with the
five-entry truncation policy. -/
def resMessage (mismatches : List (Int × (Nat × Nat) × (Nat × Nat))) : List Char :=
  if mismatches.length > 5 then
    "Resolution mismatch in ".toList ++ natRepr mismatches.length
      ++ " frames. Sample: ".toList ++ reprResMismatchList (mismatches.take 5)
  else
    "Resolution mismatch detected: ".toList ++ reprResMismatchList mismatches

/-- SequenceValidator.check_resolution_consistency: frames without
resolution are skipped; the first remaining frame is the reference; when
any later frame differs, add one error issue whose message truncates past
five entries while the structured details carry the full mismatch list. -/
def check_resolution_consistency (frames : List FrameInfo) (result : ValidationResult) :
    ValidationResult :=
  match resolutionFrames frames with
  | [] => result
  | (_, refRes) :: rest =>
      if (resMismatchesAgainst refRes rest).isEmpty then result
      else
        addErrorIssue result (resMessage (resMismatchesAgainst refRes rest))
          (some "sequence".toList)
          (some [("reference_resolution".toList, .res refRes),
                 ("mismatch_count".toList, .int (resMismatchesAgainst refRes rest).length),
                 ("mismatches".toList, .resMismatchList (resMismatchesAgainst refRes rest))])

/-- Frames carrying bit-depth information, projected to
(frame number, bit depth), in list order. -/
def bitDepthFrames (frames : List FrameInfo) : List (Int × Nat) :=
  frames.filterMap (fun f => f.bitDepth.map (fun b => (f.frameNumber, b)))

/-- Mismatch triples of the later bit-depth-bearing frames against the
reference bit depth, in list order. -/
def depthMismatchesAgainst (refDepth : Nat) (rest : List (Int × Nat)) :
    List (Int × Nat × Nat) :=
  rest.filterMap (fun p => if p.2 ≠ refDepth then some (p.1, refDepth, p.2) else none)

/-- Message formatting of the bit-depth-mismatch issue with the
five-entry truncation policy. -/
def depthMessage (mismatches : List (Int × Nat × Nat)) : List Char :=
  if mismatches.length > 5 then
    "Bit depth mismatch in ".toList ++ natRepr mismatches.length
      ++ " frames. Sample: ".toList ++ reprDepthMismatchList (mismatches.take 5)
  else
    "Bit depth mismatch detected: ".toList ++ reprDepthMismatchList mismatches

/-- SequenceValidator.check_bit_depth_consistency: same algorithm as the
resolution check, operating on bit depth. -/
def check_bit_depth_consistency (frames : List FrameInfo) (result : ValidationResult) :
    ValidationResult :=
  match bitDepthFrames frames with
  | [] => result
  | (_, refDepth) :: rest =>
      if (depthMismatchesAgainst refDepth rest).isEmpty then result
      else
        addErrorIssue result (depthMessage (depthMismatchesAgainst refDepth rest))
          (some "sequence".toList)
          (some [("reference_bit_depth".toList, .int refDepth),
                 ("mismatch_count".toList, .int (depthMismatchesAgainst refDepth rest).length),
                 ("mismatches".toList,
                   .depthMismatchList (depthMismatchesAgainst refDepth rest))])

/-- The two configuration switches the validator reads:
config.get with key sequences.check_resolution default True, and with key
sequences.check_bit_depth default True. -/
structure Config where
  checkResolution : Bool := true
  checkBitDepth : Bool := true
  deriving DecidableEq, Repr

/-- Python str of an InvalidFormatError as raised by the scanner, via
VFXVoxError.__str__ with the details dictionary holding the offending
format and the joined supported formats. -/
def pyStrInvalidFormatError (e : InvalidFormatError) : List Char :=
  e.message ++ " (format=".toList ++ e.format
    ++ ", supported_formats=".toList
    ++ List.intercalate ", ".toList e.supportedFormats ++ [')']

/-- The ValidationResult created at the top of
SequenceValidator.validate.  The directory component of the pattern
string lives in the FS oracle, so the pattern is represented here by its
filename component. -/
def initialResult (filenamePattern : List Char) : ValidationResult :=
  { passed := true
    issues := []
    metadata := [("validator".toList, .str "SequenceValidator".toList),
                 ("pattern".toList, .str filenamePattern)] }

/-- Configuration gate around the resolution check in
SequenceValidator.validate: when the switch is off the check does not run
at all. -/
def resolutionGate (cfg : Config) (frames : List FrameInfo) (r : ValidationResult) :
    ValidationResult :=
  if cfg.checkResolution then check_resolution_consistency frames r else r

/-- Configuration gate around the bit-depth check in
SequenceValidator.validate. -/
def bitDepthGate (cfg : Config) (frames : List FrameInfo) (r : ValidationResult) :
    ValidationResult :=
  if cfg.checkBitDepth then check_bit_depth_consistency frames r else r

/-- The check-dispatch portion of SequenceValidator.validate: the missing
and corruption checks always run; the resolution and bit-depth checks run
only when the corresponding configuration switch is on. -/
def runChecks (cfg : Config) (frames : List FrameInfo) (result : ValidationResult) :
    ValidationResult :=
  bitDepthGate cfg frames
    (resolutionGate cfg frames
      (check_corrupted_frames frames (check_missing_frames frames result)))

/-- Metadata update performed by SequenceValidator.validate after a
non-empty scan: frame_count and the frame_range string are added to the
result metadata. -/
def withFrameMetadata (result : ValidationResult) (fs : FS) (pat : ParsedPattern) :
    ValidationResult :=
  { result with
    metadata := result.metadata ++
      [("frame_count".toList, .int (scan_all fs pat).length),
       ("frame_range".toList,
         match get_frame_range fs pat with
         | some p => .str (pyIntRepr p.1 ++ ['-'] ++ pyIntRepr p.2)
         | none => .noneVal)] }

/-- SequenceValidator.validate: build the result, construct the scanner
(whose pattern parsing may raise), scan all frames, warn when none are
found, otherwise record frame metadata and run the checks.  The
surrounding try/except turns any exception - in particular the
InvalidFormatError from pattern parsing - into one error issue on the
returned result. -/
def validate (cfg : Config) (fs : FS) (filenamePattern : List Char) : ValidationResult :=
  match parsePattern filenamePattern with
  | .error e =>
      addErrorIssue (initialResult filenamePattern)
        ("Validation failed: ".toList ++ pyStrInvalidFormatError e)
        (some filenamePattern) none
  | .ok pat =>
      if (scan_all fs pat).isEmpty then
        addWarningIssue (initialResult filenamePattern)
          "No frames found matching pattern".toList (some filenamePattern)
      else
        runChecks cfg (scan_all fs pat) (withFrameMetadata (initialResult filenamePattern) fs pat)

/-- Keys of the structured details dictionary of an issue, in insertion
order; empty when no details were attached. -/
def detailKeys (i : ValidationIssue) : List (List Char) :=
  (i.details.getD []).map (·.1)

/-- Resolution of the reference frame used by the resolution-consistency
check, when any frame carries resolution information. -/
def refResolution (frames : List FrameInfo) : Option (Nat × Nat) :=
  (resolutionFrames frames).head?.map (·.2)

/-- A filesystem oracle for a non-existent base directory with no
readable files. -/
def emptyFS : FS :=
  { baseDirExists := false
    entries := []
    fileExists := fun _ => false
    readByte := fun _ => false
    readMeta := fun _ => .noHandler }

/-! Helper lemmas. -/

theorem isPrefixOf_iff_append (l₁ l₂ : List Char) :
    l₁.isPrefixOf l₂ = true ↔ ∃ t, l₂ = l₁ ++ t := by
  induction l₁ generalizing l₂ with
  | nil => simp [List.isPrefixOf]
  | cons a as ih =>
    cases l₂ with
    | nil => simp [List.isPrefixOf]
    | cons b bs =>
      simp only [List.isPrefixOf, Bool.and_eq_true, beq_iff_eq, ih, List.cons_append,
        List.cons.injEq]
      constructor
      · rintro ⟨rfl, t, rfl⟩
        exact ⟨t, rfl, rfl⟩
      · rintro ⟨t, rfl, rfl⟩
        exact ⟨rfl, t, rfl⟩

theorem stepIssue_passed_false (r : ValidationResult)
    (c : List Char × List Char × Option (List Char) ×
      Option (List (List Char × DetailValue)))
    (h : r.passed = false) : (stepIssue r c).passed = false := by
  rcases c with ⟨sev, m, l, d⟩
  by_cases hv : validSeverity sev
  · simp only [stepIssue, add_issue, mkValidationIssue, hv, if_true]
    split <;> simp [h]
  · simp [stepIssue, add_issue, mkValidationIssue, hv, h]

/-! Claim C5. -/

/-- C5: passed becomes false the moment an error issue is appended, and
no later add_issue call of any severity ever sets it back to true. -/
theorem C5_passed_latch :
    (∀ (r : ValidationResult) (m : List Char) (l : Option (List Char))
        (d : Option (List (List Char × DetailValue))),
        (stepIssue r ("error".toList, m, l, d)).passed = false) ∧
    (∀ (calls : List (List Char × List Char × Option (List Char) ×
        Option (List (List Char × DetailValue)))) (r : ValidationResult),
        r.passed = false → (calls.foldl stepIssue r).passed = false) := by
  constructor
  · intro r m l d
    simp [stepIssue, add_issue, mkValidationIssue, validSeverity]
  · intro calls
    induction calls with
    | nil => intro r h; simpa using h
    | cons c cs ih =>
      intro r h
      exact ih _ (stepIssue_passed_false r c h)

/-- Witness for C5 at a concrete result and a concrete call list. -/
theorem C5_witness :
    (stepIssue { passed := true } ("error".toList, "boom".toList, none, none)).passed
      = false ∧
    ([("info".toList, "note".toList, none, none),
      ("warning".toList, "careful".toList, none, none)].foldl stepIssue
        { passed := false }).passed = false :=
  ⟨C5_passed_latch.1 { passed := true } "boom".toList none none,
   C5_passed_latch.2 _ { passed := false } rfl⟩

/-! Claim C10. -/

/-- C10: add_issue rejects a severity outside error, warning, info with a
hard error raised before the append, so the caller's result keeps its
issues list and passed value unchanged. -/
theorem C10_add_issue_rejects_invalid (r : ValidationResult) (sev m : List Char)
    (l : Option (List Char)) (d : Option (List (List Char × DetailValue)))
    (h1 : sev ≠ "error".toList) (h2 : sev ≠ "warning".toList)
    (h3 : sev ≠ "info".toList) :
    add_issue r sev m l d = .error ("Invalid severity ".toList ++ sev) ∧
    stepIssue r (sev, m, l, d) = r := by
  have hv : validSeverity sev = false := by
    simp only [validSeverity]
    simp only [Bool.or_eq_false_iff, decide_eq_false_iff_not]
    exact ⟨⟨h1, h2⟩, h3⟩
  refine ⟨?_, ?_⟩ <;> simp [add_issue, mkValidationIssue, stepIssue, hv]

/-- Witness for C10 at the severity string fatal. -/
theorem C10_witness :
    add_issue { passed := true } "fatal".toList "boom".toList none none
      = .error ("Invalid severity ".toList ++ "fatal".toList) ∧
    stepIssue { passed := true } ("fatal".toList, "boom".toList, none, none)
      = { passed := true } :=
  C10_add_issue_rejects_invalid { passed := true } "fatal".toList "boom".toList
    none none (by decide) (by decide) (by decide)

/-! Claim C9. -/

/-- C9: a non-existent base directory yields an empty detect_frames
result and the explicit no-range signal from get_frame_range, and both
operations are total. -/
theorem C9_nonexistent_dir_empty (fs : FS) (pat : ParsedPattern)
    (h : fs.baseDirExists = false) :
    detect_frames fs pat = [] ∧ get_frame_range fs pat = none := by
  have hd : detect_frames fs pat = [] := by
    simp [detect_frames, h]
  refine ⟨hd, ?_⟩
  simp only [get_frame_range, hd]

/-- Witness for C9 at the empty filesystem oracle and a concrete parsed
pattern. -/
theorem C9_witness :
    detect_frames emptyFS
        { patternType := .printf, padding := 4,
          baseName := "shot.".toList, extension := ".exr".toList } = [] ∧
    get_frame_range emptyFS
        { patternType := .printf, padding := 4,
          baseName := "shot.".toList, extension := ".exr".toList } = none :=
  C9_nonexistent_dir_empty emptyFS _ rfl

theorem scanFrameBase_frameNumber (fs : FS) (pat : ParsedPattern) (n : Int) :
    (scanFrameBase fs pat n).frameNumber = n := rfl

theorem scanFrameBase_filePath (fs : FS) (pat : ParsedPattern) (n : Int) :
    (scanFrameBase fs pat n).filePath = frameFilename pat n := rfl

theorem scanFrameBase_fileOnDisk (fs : FS) (pat : ParsedPattern) (n : Int) :
    (scanFrameBase fs pat n).fileOnDisk = fs.fileExists (frameFilename pat n) := rfl

theorem scanFrameBase_readable (fs : FS) (pat : ParsedPattern) (n : Int) :
    (scanFrameBase fs pat n).readable
      = if fs.fileExists (frameFilename pat n) then fs.readByte (frameFilename pat n)
        else false := rfl

theorem scanFrameBase_resolution (fs : FS) (pat : ParsedPattern) (n : Int) :
    (scanFrameBase fs pat n).resolution = none := rfl

theorem scanFrameBase_bitDepth (fs : FS) (pat : ParsedPattern) (n : Int) :
    (scanFrameBase fs pat n).bitDepth = none := rfl

/-! Claim C8. -/

/-- C8: scan_frame is total on every oracle and integer, a failing
one-byte read leaves the frame unreadable rather than aborting, a
non-existent file is neither on disk nor readable, and a failing or
handler-less metadata read leaves resolution and bit depth absent. -/
theorem C8_scan_frame_resilient (fs : FS) (pat : ParsedPattern) (n : Int) :
    (scan_frame fs pat n).frameNumber = n ∧
    (scan_frame fs pat n).filePath
      = pat.baseName ++ renderFrameStr pat.padding n ++ pat.extension ∧
    (fs.readByte (pat.baseName ++ renderFrameStr pat.padding n ++ pat.extension) = false →
      (scan_frame fs pat n).readable = false) ∧
    (fs.fileExists (pat.baseName ++ renderFrameStr pat.padding n ++ pat.extension) = false →
      (scan_frame fs pat n).fileOnDisk = false ∧ (scan_frame fs pat n).readable = false) ∧
    (fs.readMeta (pat.baseName ++ renderFrameStr pat.padding n ++ pat.extension) = .raised →
      (scan_frame fs pat n).resolution = none ∧ (scan_frame fs pat n).bitDepth = none) ∧
    (fs.readMeta (pat.baseName ++ renderFrameStr pat.padding n ++ pat.extension) = .noHandler →
      (scan_frame fs pat n).resolution = none ∧ (scan_frame fs pat n).bitDepth = none) := by
  have hfn : frameFilename pat n
      = pat.baseName ++ renderFrameStr pat.padding n ++ pat.extension := rfl
  rw [← hfn]
  by_cases he : fs.fileExists (frameFilename pat n) <;>
    by_cases hr : fs.readByte (frameFilename pat n) <;>
      cases hm : fs.readMeta (frameFilename pat n) <;>
        simp [scan_frame, readFrameMetadata, scanFrameBase_frameNumber,
          scanFrameBase_filePath, scanFrameBase_fileOnDisk, scanFrameBase_readable,
          scanFrameBase_resolution, scanFrameBase_bitDepth, he, hr, hm]

/-- Witness for C8 at the empty filesystem oracle. -/
theorem C8_witness :
    (scan_frame emptyFS
        { patternType := .printf, padding := 4,
          baseName := "shot.".toList, extension := ".exr".toList } 7).readable = false ∧
    (scan_frame emptyFS
        { patternType := .printf, padding := 4,
          baseName := "shot.".toList, extension := ".exr".toList } 7).resolution = none :=
  ⟨((C8_scan_frame_resilient emptyFS _ 7).2.2.1 rfl),
   by
    have h := (C8_scan_frame_resilient emptyFS
      { patternType := .printf, padding := 4,
        baseName := "shot.".toList, extension := ".exr".toList } 7).2.2.2.2.2 rfl
    exact h.1⟩

/-! Helper lemmas about Python decimal rendering and zero padding. -/

theorem digitChar_isDigit (d : Nat) (h : d < 10) : (Nat.digitChar d).isDigit := by
  interval_cases d <;> decide

theorem digitChar_ne_zero_char (d : Nat) (h1 : d ≠ 0) (h2 : d < 10) :
    Nat.digitChar d ≠ '0' := by
  interval_cases d <;> simp_all <;> decide

theorem natRepr_all_digits (n : Nat) : ∀ c ∈ natRepr n, c.isDigit := by
  induction n using Nat.strong_induction_on with
  | _ n ih =>
    unfold natRepr
    split
    next h =>
      intro c hc
      simp only [List.mem_singleton] at hc
      subst hc
      exact digitChar_isDigit n h
    next h =>
      intro c hc
      rcases List.mem_append.mp hc with hc | hc
      · exact ih (n / 10) (Nat.div_lt_self (by omega) (by omega)) c hc
      · simp only [List.mem_singleton] at hc
        subst hc
        exact digitChar_isDigit (n % 10) (Nat.mod_lt _ (by omega))

theorem natRepr_ne_nil (n : Nat) : natRepr n ≠ [] := by
  unfold natRepr
  split <;> simp

theorem natRepr_head_ne_zero (n : Nat) (h : n ≠ 0) :
    (natRepr n).head? ≠ some '0' := by
  induction n using Nat.strong_induction_on with
  | _ n ih =>
    unfold natRepr
    split
    next hlt =>
      simp only [List.head?_cons, ne_eq, Option.some.injEq]
      exact digitChar_ne_zero_char n h hlt
    next hlt =>
      obtain ⟨c, cs, hcc⟩ := List.exists_cons_of_ne_nil (natRepr_ne_nil (n / 10))
      have hdiv : n / 10 ≠ 0 := by omega
      have hih := ih (n / 10) (Nat.div_lt_self (by omega) (by omega)) hdiv
      rw [hcc] at hih ⊢
      simpa using hih

theorem pyZfill_digits (s : List Char) (w : Nat) (hs : s ≠ [])
    (hd : ∀ c ∈ s, c.isDigit) :
    pyZfill s w = List.replicate (w - s.length) '0' ++ s := by
  unfold pyZfill
  split
  · have : w - s.length = 0 := by omega
    simp [this]
  · match s, hs with
    | c :: rest, _ =>
      have hc : c.isDigit := hd c (by simp)
      have hsign : ¬(c = '-' ∨ c = '+') := by
        rintro (rfl | rfl) <;> simp [Char.isDigit] at hc
      simp [hsign]

/-! Claim C6. -/

/-- C6: for a non-negative frame number the rendered frame field is the
decimal representation left-padded with zeros to exactly the padding
width when the padding is positive (never truncated when the natural
representation is at least that wide), and the natural representation
with no leading zero when the padding is zero. -/
theorem C6_scan_frame_padding (fs : FS) (pat : ParsedPattern) (n : Nat) :
    (scan_frame fs pat (n : Int)).filePath
      = pat.baseName ++ renderFrameStr pat.padding (n : Int) ++ pat.extension ∧
    (pat.padding > 0 →
      renderFrameStr pat.padding (n : Int)
        = List.replicate (pat.padding - (natRepr n).length) '0' ++ natRepr n ∧
      (renderFrameStr pat.padding (n : Int)).length
        = max pat.padding (natRepr n).length) ∧
    (pat.padding = 0 → renderFrameStr pat.padding (n : Int) = natRepr n) ∧
    (n ≠ 0 → (natRepr n).head? ≠ some '0') := by
  have hrepr : pyIntRepr (n : Int) = natRepr n := by
    unfold pyIntRepr
    have : ¬((n : Int) < 0) := by omega
    simp [this]
  refine ⟨(C8_scan_frame_resilient fs pat (n : Int)).2.1, ?_, ?_, natRepr_head_ne_zero n⟩
  · intro hp
    have hz : renderFrameStr pat.padding (n : Int)
        = List.replicate (pat.padding - (natRepr n).length) '0' ++ natRepr n := by
      unfold renderFrameStr
      simp only [hp, if_true, hrepr]
      exact pyZfill_digits (natRepr n) pat.padding (natRepr_ne_nil n) (natRepr_all_digits n)
    refine ⟨hz, ?_⟩
    rw [hz]
    simp only [List.length_append, List.length_replicate]
    omega
  · intro hp
    unfold renderFrameStr
    simp [hp, hrepr]

/-- Witness for C6 at padding four and padding zero with frame seven. -/
theorem C6_witness :
    renderFrameStr 4 ((7 : Nat) : Int) = "0007".toList ∧
    renderFrameStr 0 ((7 : Nat) : Int) = "7".toList ∧
    (natRepr 7).head? ≠ some '0' := by
  have h7 : natRepr 7 = "7".toList := by
    unfold natRepr
    norm_num [Nat.digitChar]
  have h4 := (C6_scan_frame_padding emptyFS
    { patternType := .printf, padding := 4,
      baseName := "shot.".toList, extension := ".exr".toList } 7).2.1 (by decide)
  have h0 := (C6_scan_frame_padding emptyFS
    { patternType := .printf, padding := 0,
      baseName := "shot.".toList, extension := ".exr".toList } 7).2.2.1 rfl
  have hh := (C6_scan_frame_padding emptyFS
    { patternType := .printf, padding := 0,
      baseName := "shot.".toList, extension := ".exr".toList } 7).2.2.2 (by decide)
  refine ⟨?_, ?_, hh⟩
  · rw [h4.1, h7]
    decide
  · rw [h0, h7]

/-! Claim C2. -/

/-- Counterexample to C2 as stated: in the filename hash-percent-d both a
hash run (offset zero) and a printf construct (offset one) are present,
yet the parser selects the printf construct, whose match does not start
at the lowest offset. -/
theorem C2_counterexample :
    parsePattern ("#%d".toList)
      = .ok { patternType := .printf, padding := 0, baseName := "#".toList,
              extension := [] } ∧
    printfOffset ("#%d".toList) = some 1 ∧
    hashOffset ("#%d".toList) = some 0 := by
  refine ⟨rfl, rfl, rfl⟩

/-- C2 amended: when several notations are present the parser does not
pick the lowest-offset match; it probes in the fixed order printf, hash,
range, and the first notation kind that matches anywhere in the filename
wins, with exactly one construct chosen. -/
theorem C2_probe_order (cs : List Char) (p : ParsedPattern)
    (h : parsePattern cs = .ok p) :
    ((printfOffset cs).isSome → p.patternType = .printf) ∧
    (printfOffset cs = none → (hashOffset cs).isSome → p.patternType = .hash) ∧
    (printfOffset cs = none → hashOffset cs = none → p.patternType = .range) := by
  cases hp : searchPrintf cs with
  | some r =>
    obtain ⟨pre, ds, post⟩ := r
    simp only [parsePattern, hp] at h
    cases h
    simp [printfOffset, hp]
  | none =>
    cases hh : searchHash cs with
    | some r =>
      obtain ⟨pre, runLen, post⟩ := r
      simp only [parsePattern, hp, hh] at h
      cases h
      simp [printfOffset, hashOffset, hp, hh]
    | none =>
      cases hr : searchRange cs with
      | some r =>
        obtain ⟨pre, d1, d2, post⟩ := r
        simp only [parsePattern, hp, hh, hr] at h
        cases h
        simp [printfOffset, hashOffset, hp, hh]
      | none =>
        simp only [parsePattern, hp, hh, hr] at h
        cases h

/-- Witness for C2 amended at a filename where only a hash run matches. -/
theorem C2_witness :
    (parsePattern ("shot.####.exr".toList)).map (·.patternType)
      = .ok PatternType.hash := by
  have h : parsePattern ("shot.####.exr".toList)
      = .ok { patternType := .hash, padding := 4, baseName := "shot.".toList,
              extension := ".exr".toList } := by rfl
  have hp : printfOffset ("shot.####.exr".toList) = none := rfl
  have := (C2_probe_order ("shot.####.exr".toList) _ h).2.1 hp (by rfl)
  rw [h]
  exact congrArg Except.ok this

/-! Claim C1. -/

theorem parsePattern_error_fields (fp : List Char) (e : InvalidFormatError)
    (h : parsePattern fp = .error e) :
    e.message = "Unrecognized pattern format: ".toList ++ fp ∧
    e.format = fp ∧ e.supportedFormats = supportedFormatsList := by
  cases hp : searchPrintf fp with
  | some r =>
    obtain ⟨pre, ds, post⟩ := r
    simp only [parsePattern, hp] at h
    exact Except.noConfusion h
  | none =>
    cases hh : searchHash fp with
    | some r =>
      obtain ⟨pre, runLen, post⟩ := r
      simp only [parsePattern, hp, hh] at h
      exact Except.noConfusion h
    | none =>
      cases hr : searchRange fp with
      | some r =>
        obtain ⟨pre, d1, d2, post⟩ := r
        simp only [parsePattern, hp, hh, hr] at h
        exact Except.noConfusion h
      | none =>
        simp only [parsePattern, hp, hh, hr] at h
        cases h
        exact ⟨rfl, rfl, rfl⟩

/-- Counterexample to C1 as stated: for a filename with no recognizable
notation, pattern parsing does produce the typed error, but validate
completes and returns a ValidationResult carrying the failure as a single
error issue instead of letting the exception abort the call. -/
theorem C1_counterexample :
    (∃ e, parsePattern ("foo.exr".toList) = .error e) ∧
    (validate {} emptyFS ("foo.exr".toList)).passed = false ∧
    (validate {} emptyFS ("foo.exr".toList)).issues.map (·.severity)
      = ["error".toList] :=
  ⟨⟨_, rfl⟩, rfl, rfl⟩

/-- C1 amended: for a pattern whose filename has no recognizable
notation, the scanner's pattern parsing raises the typed
InvalidFormatError carrying the offending value and the supported
alternatives before any scanning occurs, but SequenceValidator.validate
catches it and returns a ValidationResult with passed false and exactly
one error issue; the returned result does not depend on the filesystem,
so no scanning happens. -/
theorem C1_validate_catches_format_error (cfg : Config) (fs : FS) (fp : List Char)
    (e : InvalidFormatError) (h : parsePattern fp = .error e) :
    (validate cfg fs fp).passed = false ∧
    (validate cfg fs fp).issues =
      [{ severity := "error".toList,
         message := "Validation failed: ".toList ++ pyStrInvalidFormatError e,
         location := some fp, details := none }] ∧
    e.format = fp ∧ e.supportedFormats = supportedFormatsList ∧
    (∀ fs' : FS, validate cfg fs fp = validate cfg fs' fp) := by
  obtain ⟨hmsg, hfmt, hsup⟩ := parsePattern_error_fields fp e h
  refine ⟨?_, ?_, hfmt, hsup, ?_⟩
  · simp only [validate, h, addErrorIssue]
  · simp only [validate, h, addErrorIssue, initialResult]
    simp
  · intro fs'
    simp only [validate, h]

/-- Witness for C1 amended at the filename foo.exr. -/
theorem C1_witness :
    (validate {} emptyFS ("foo.exr".toList)).passed = false ∧
    (validate {} emptyFS ("foo.exr".toList)).issues =
      [{ severity := "error".toList,
         message := "Validation failed: ".toList ++ pyStrInvalidFormatError
           { message := "Unrecognized pattern format: ".toList ++ "foo.exr".toList,
             format := "foo.exr".toList, supportedFormats := supportedFormatsList },
         location := some ("foo.exr".toList), details := none }] := by
  have h := C1_validate_catches_format_error {} emptyFS ("foo.exr".toList)
    { message := "Unrecognized pattern format: ".toList ++ "foo.exr".toList,
      format := "foo.exr".toList, supportedFormats := supportedFormatsList } rfl
  exact ⟨h.1, h.2.1⟩

/-! Helper lemmas about Python min and max over nonempty lists. -/

theorem foldl_min_le_init (a : Int) (l : List Int) : l.foldl min a ≤ a := by
  induction l generalizing a with
  | nil => exact le_refl a
  | cons x xs ih => exact le_trans (ih (min a x)) (min_le_left a x)

theorem foldl_min_le_mem (a : Int) (l : List Int) (y : Int) :
    y ∈ l → l.foldl min a ≤ y := by
  induction l generalizing a with
  | nil => intro hy; cases hy
  | cons x xs ih =>
    intro hy
    rcases List.mem_cons.mp hy with rfl | hy'
    · exact le_trans (foldl_min_le_init (min a y) xs) (min_le_right a y)
    · exact ih (min a x) hy'

theorem foldl_min_mem (a : Int) (l : List Int) :
    l.foldl min a = a ∨ l.foldl min a ∈ l := by
  induction l generalizing a with
  | nil => exact Or.inl rfl
  | cons x xs ih =>
    rcases ih (min a x) with h | h
    · rcases min_choice a x with hax | hax
      · left
        rw [List.foldl_cons, h, hax]
      · right
        rw [List.foldl_cons, h, hax]
        exact List.mem_cons_self x xs
    · exact Or.inr (List.mem_cons_of_mem x h)

theorem foldl_max_ge_init (a : Int) (l : List Int) : a ≤ l.foldl max a := by
  induction l generalizing a with
  | nil => exact le_refl a
  | cons x xs ih => exact le_trans (le_max_left a x) (ih (max a x))

theorem foldl_max_ge_mem (a : Int) (l : List Int) (y : Int) :
    y ∈ l → y ≤ l.foldl max a := by
  induction l generalizing a with
  | nil => intro hy; cases hy
  | cons x xs ih =>
    intro hy
    rcases List.mem_cons.mp hy with rfl | hy'
    · exact le_trans (le_max_right a y) (foldl_max_ge_init (max a y) xs)
    · exact ih (max a x) hy'

theorem foldl_max_mem (a : Int) (l : List Int) :
    l.foldl max a = a ∨ l.foldl max a ∈ l := by
  induction l generalizing a with
  | nil => exact Or.inl rfl
  | cons x xs ih =>
    rcases ih (max a x) with h | h
    · rcases max_choice a x with hax | hax
      · left
        rw [List.foldl_cons, h, hax]
      · right
        rw [List.foldl_cons, h, hax]
        exact List.mem_cons_self x xs
    · exact Or.inr (List.mem_cons_of_mem x h)

theorem pyMin_mem (nums : List Int) (h : nums ≠ []) : pyMin nums ∈ nums := by
  match nums, h with
  | x :: xs, _ =>
    rcases foldl_min_mem x xs with h' | h'
    · simp [pyMin, h']
    · exact List.mem_cons_of_mem x (by simpa [pyMin] using h')

theorem pyMin_le (nums : List Int) (y : Int) (hy : y ∈ nums) : pyMin nums ≤ y := by
  cases nums with
  | nil => cases hy
  | cons x xs =>
    rcases List.mem_cons.mp hy with rfl | hy'
    · exact foldl_min_le_init y xs
    · exact foldl_min_le_mem x xs y hy'

theorem pyMax_mem (nums : List Int) (h : nums ≠ []) : pyMax nums ∈ nums := by
  match nums, h with
  | x :: xs, _ =>
    rcases foldl_max_mem x xs with h' | h'
    · simp [pyMax, h']
    · exact List.mem_cons_of_mem x (by simpa [pyMax] using h')

theorem pyMax_ge (nums : List Int) (y : Int) (hy : y ∈ nums) : y ≤ pyMax nums := by
  cases nums with
  | nil => cases hy
  | cons x xs =>
    rcases List.mem_cons.mp hy with rfl | hy'
    · exact foldl_max_ge_init y xs
    · exact foldl_max_ge_mem x xs y hy'

theorem missingOf_mem (nums : List Int) (k : Int) :
    k ∈ missingOf nums ↔ pyMin nums ≤ k ∧ k ≤ pyMax nums ∧ k ∉ nums := by
  unfold missingOf
  rw [Finset.mem_sort]
  simp only [Finset.mem_sdiff, Finset.mem_Icc, List.mem_toFinset]
  tauto

/-! Claim C4. -/

/-- C4: for a nonempty frame list the missing set is exactly the sorted
gap set between the present minimum and maximum; the check adds exactly
one error issue iff the gap set is nonempty, with untruncated structured
details (missing_count, missing_frames, expected_range, found_count over
distinct present frames) and a message that lists every gap up to ten
entries and only the first ten plus the count beyond ten. -/
theorem C4_missing_frames_check (frames : List FrameInfo) (result : ValidationResult)
    (h : frames ≠ []) :
    (∀ k : Int, k ∈ missingOf (frames.map (·.frameNumber)) ↔
        pyMin (frames.map (·.frameNumber)) ≤ k ∧
        k ≤ pyMax (frames.map (·.frameNumber)) ∧
        k ∉ frames.map (·.frameNumber)) ∧
    (missingOf (frames.map (·.frameNumber))).Sorted (· ≤ ·) ∧
    pyMin (frames.map (·.frameNumber)) ∈ frames.map (·.frameNumber) ∧
    (∀ y ∈ frames.map (·.frameNumber), pyMin (frames.map (·.frameNumber)) ≤ y) ∧
    pyMax (frames.map (·.frameNumber)) ∈ frames.map (·.frameNumber) ∧
    (∀ y ∈ frames.map (·.frameNumber), y ≤ pyMax (frames.map (·.frameNumber))) ∧
    (missingOf (frames.map (·.frameNumber)) = [] →
      check_missing_frames frames result = result) ∧
    (missingOf (frames.map (·.frameNumber)) ≠ [] →
      check_missing_frames frames result
        = addErrorIssue result
            (missingMessage (missingOf (frames.map (·.frameNumber))))
            (some ("frames ".toList ++ rangeStr (frames.map (·.frameNumber))))
            (some [("missing_count".toList,
                     .int (missingOf (frames.map (·.frameNumber))).length),
                   ("missing_frames".toList,
                     .intList (missingOf (frames.map (·.frameNumber)))),
                   ("expected_range".toList,
                     .str (rangeStr (frames.map (·.frameNumber)))),
                   ("found_count".toList,
                     .int (frames.map (·.frameNumber)).toFinset.card)]) ∧
      (check_missing_frames frames result).issues.length
        = result.issues.length + 1 ∧
      (check_missing_frames frames result).passed = false) := by
  have hne : frames.map (·.frameNumber) ≠ [] := by
    simpa using h
  have hemp : frames.isEmpty = false := by
    cases frames with
    | nil => exact absurd rfl h
    | cons a l => rfl
  refine ⟨missingOf_mem _, ?_, pyMin_mem _ hne,
    fun y hy => pyMin_le _ y hy, pyMax_mem _ hne, fun y hy => pyMax_ge _ y hy, ?_, ?_⟩
  · unfold missingOf
    exact Finset.sort_sorted _ _
  · intro hmiss
    have hmiss' : (missingOf (frames.map (·.frameNumber))).isEmpty = true := by
      rw [hmiss]
      rfl
    unfold check_missing_frames
    rw [hemp, hmiss']
    simp
  · intro hmiss
    have hmiss' : (missingOf (frames.map (·.frameNumber))).isEmpty = false := by
      cases hml : missingOf (frames.map (·.frameNumber)) with
      | nil => exact absurd hml hmiss
      | cons a l => rfl
    have heq : check_missing_frames frames result
        = addErrorIssue result
            (missingMessage (missingOf (frames.map (·.frameNumber))))
            (some ("frames ".toList ++ rangeStr (frames.map (·.frameNumber))))
            (some [("missing_count".toList,
                     .int (missingOf (frames.map (·.frameNumber))).length),
                   ("missing_frames".toList,
                     .intList (missingOf (frames.map (·.frameNumber)))),
                   ("expected_range".toList,
                     .str (rangeStr (frames.map (·.frameNumber)))),
                   ("found_count".toList,
                     .int (frames.map (·.frameNumber)).toFinset.card)]) := by
      unfold check_missing_frames
      rw [hemp, hmiss']
      simp
    refine ⟨heq, ?_, ?_⟩ <;> simp [heq, addErrorIssue]

/-- Witness for C4 at frames one, two and four: frame three is the only
gap and the check records exactly one error issue. -/
theorem C4_witness :
    (3 : Int) ∈ missingOf
      ([⟨1, [], true, true, none, none, none⟩, ⟨2, [], true, true, none, none, none⟩,
        ⟨4, [], true, true, none, none, none⟩].map
        (fun f : FrameInfo => f.frameNumber)) ∧
    (check_missing_frames
      [⟨1, [], true, true, none, none, none⟩, ⟨2, [], true, true, none, none, none⟩,
       ⟨4, [], true, true, none, none, none⟩]
      { passed := true }).issues.length = 1 ∧
    (check_missing_frames
      [⟨1, [], true, true, none, none, none⟩, ⟨2, [], true, true, none, none, none⟩,
       ⟨4, [], true, true, none, none, none⟩]
      { passed := true }).passed = false := by
  have h := C4_missing_frames_check
    [⟨1, [], true, true, none, none, none⟩, ⟨2, [], true, true, none, none, none⟩,
     ⟨4, [], true, true, none, none, none⟩]
    { passed := true } (by simp)
  have hmem := (h.1 3).mpr (by refine ⟨by decide, by decide, by decide⟩)
  have hne := List.ne_nil_of_mem hmem
  have h2 := h.2.2.2.2.2.2.2 hne
  exact ⟨hmem, by simp [h2.1, addErrorIssue], h2.2.2⟩

/-! Helper lemmas for the resolution-consistency claim. -/

theorem resolutionFrames_numbers_sublist (frames : List FrameInfo) :
    List.Sublist ((resolutionFrames frames).map (fun p => p.1))
      (frames.map (fun f => f.frameNumber)) := by
  induction frames with
  | nil => simp [resolutionFrames]
  | cons f rest ih =>
    cases hres : f.resolution with
    | none =>
      simp only [resolutionFrames, List.filterMap_cons, hres, Option.map_none',
        List.map_cons]
      exact List.Sublist.cons _ ih
    | some r =>
      simp only [resolutionFrames, List.filterMap_cons, hres, Option.map_some',
        List.map_cons]
      exact List.Sublist.cons₂ _ ih

theorem addErrorIssue_ne_self (r : ValidationResult) (m : List Char)
    (l : Option (List Char)) (d : Option (List (List Char × DetailValue))) :
    addErrorIssue r m l d ≠ r := by
  intro hcontra
  have hlen : (addErrorIssue r m l d).issues.length = r.issues.length + 1 := by
    simp [addErrorIssue]
  rw [hcontra] at hlen
  omega

theorem check_missing_frames_keys (frames : List FrameInfo) (r : ValidationResult)
    (i : ValidationIssue) (hi : i ∈ (check_missing_frames frames r).issues) :
    i ∈ r.issues ∨ "reference_resolution".toList ∉ detailKeys i := by
  unfold check_missing_frames at hi
  split at hi
  · exact Or.inl hi
  · split at hi
    · exact Or.inl hi
    · simp only [addErrorIssue, List.mem_append] at hi
      rcases hi with hi | hi
      · exact Or.inl hi
      · right
        simp only [List.mem_singleton] at hi
        subst hi
        simp only [detailKeys, Option.getD_some, List.map_cons, List.map_nil]
        decide

theorem check_corrupted_frames_keys (frames : List FrameInfo) (r : ValidationResult)
    (i : ValidationIssue) (hi : i ∈ (check_corrupted_frames frames r).issues) :
    i ∈ r.issues ∨ "reference_resolution".toList ∉ detailKeys i := by
  unfold check_corrupted_frames at hi
  split at hi
  · exact Or.inl hi
  · simp only [addErrorIssue, List.mem_append] at hi
    rcases hi with hi | hi
    · exact Or.inl hi
    · right
      simp only [List.mem_singleton] at hi
      subst hi
      simp only [detailKeys, Option.getD_some, List.map_cons, List.map_nil]
      decide

theorem check_bit_depth_keys (frames : List FrameInfo) (r : ValidationResult)
    (i : ValidationIssue) (hi : i ∈ (check_bit_depth_consistency frames r).issues) :
    i ∈ r.issues ∨ "reference_resolution".toList ∉ detailKeys i := by
  unfold check_bit_depth_consistency at hi
  split at hi
  · exact Or.inl hi
  · split at hi
    · exact Or.inl hi
    · simp only [addErrorIssue, List.mem_append] at hi
      rcases hi with hi | hi
      · exact Or.inl hi
      · right
        simp only [List.mem_singleton] at hi
        subst hi
        simp only [detailKeys, Option.getD_some, List.map_cons, List.map_nil]
        decide

theorem runChecks_no_resolution_key (cfg : Config) (frames : List FrameInfo)
    (r : ValidationResult) (i : ValidationIssue) (hcfg : cfg.checkResolution = false)
    (hi : i ∈ (runChecks cfg frames r).issues) :
    i ∈ r.issues ∨ "reference_resolution".toList ∉ detailKeys i := by
  unfold runChecks bitDepthGate at hi
  have hgate : resolutionGate cfg frames
      (check_corrupted_frames frames (check_missing_frames frames r))
      = check_corrupted_frames frames (check_missing_frames frames r) := by
    unfold resolutionGate
    rw [hcfg]
    simp
  rw [hgate] at hi
  have step : ∀ j : ValidationIssue,
      j ∈ (check_corrupted_frames frames (check_missing_frames frames r)).issues →
      j ∈ r.issues ∨ "reference_resolution".toList ∉ detailKeys j := by
    intro j hj
    rcases check_corrupted_frames_keys frames _ j hj with hj' | hj'
    · exact check_missing_frames_keys frames r j hj'
    · exact Or.inr hj'
  split at hi
  · rcases check_bit_depth_keys frames _ i hi with hi' | hi'
    · exact step i hi'
    · exact Or.inr hi'
  · exact step i hi

/-! Claim C7. -/

/-- C7: on ascending input the reference is the first resolution-bearing
frame (its frame number is least among them), frames without resolution
never produce an issue, the check leaves the result unchanged iff no
later resolution-bearing frame differs from the reference and otherwise
adds exactly one error issue whose message truncates past five mismatches
while the details carry the reference resolution, the mismatch count, and
the full untruncated mismatch list; with the configuration switch off, no
issue of the whole validate run carries the resolution details. -/
theorem C7_resolution_consistency (frames : List FrameInfo) (result : ValidationResult)
    (cfg : Config) (fs : FS) (fp : List Char) :
    ((frames.map (fun f => f.frameNumber)).Sorted (· ≤ ·) →
      ∀ p ∈ (resolutionFrames frames).head?, ∀ q ∈ resolutionFrames frames,
        p.1 ≤ q.1) ∧
    (check_resolution_consistency frames result = result ↔ resMismatches frames = []) ∧
    (∀ (a : Int) (refRes : Nat × Nat) (rest : List (Int × (Nat × Nat))),
      resolutionFrames frames = (a, refRes) :: rest →
      resMismatchesAgainst refRes rest ≠ [] →
      check_resolution_consistency frames result
        = addErrorIssue result (resMessage (resMismatchesAgainst refRes rest))
            (some "sequence".toList)
            (some [("reference_resolution".toList, .res refRes),
                   ("mismatch_count".toList,
                     .int (resMismatchesAgainst refRes rest).length),
                   ("mismatches".toList,
                     .resMismatchList (resMismatchesAgainst refRes rest))]) ∧
      (check_resolution_consistency frames result).issues.length
        = result.issues.length + 1 ∧
      (check_resolution_consistency frames result).passed = false) ∧
    (cfg.checkResolution = false →
      ∀ i ∈ (validate cfg fs fp).issues,
        "reference_resolution".toList ∉ detailKeys i) := by
  refine ⟨?_, ?_, ?_, ?_⟩
  · intro hs p hp q hq
    cases hrf : resolutionFrames frames with
    | nil =>
      rw [hrf] at hp
      cases hp
    | cons x tail =>
      rw [hrf] at hp hq
      simp only [List.head?_cons, Option.mem_def, Option.some.injEq] at hp
      subst hp
      have hsorted : ((resolutionFrames frames).map (fun p => p.1)).Sorted (· ≤ ·) :=
        hs.sublist (resolutionFrames_numbers_sublist frames)
      rw [hrf, List.map_cons] at hsorted
      rcases List.mem_cons.mp hq with rfl | hq'
      · exact le_refl _
      · exact List.rel_of_sorted_cons hsorted q.1 (List.mem_map_of_mem _ hq')
  · cases hrf : resolutionFrames frames with
    | nil =>
      simp only [check_resolution_consistency, resMismatches, hrf]
    | cons x tail =>
      obtain ⟨a, refRes⟩ := x
      simp only [check_resolution_consistency, resMismatches, hrf]
      by_cases hmm : (resMismatchesAgainst refRes tail).isEmpty
      · have : resMismatchesAgainst refRes tail = [] := by
          cases hml : resMismatchesAgainst refRes tail with
          | nil => rfl
          | cons b l => rw [hml] at hmm; exact absurd hmm (by simp)
        simp [hmm, this]
      · have hne : resMismatchesAgainst refRes tail ≠ [] := by
          intro hcontra
          rw [hcontra] at hmm
          exact hmm rfl
        simp only [hmm, Bool.false_eq_true, if_false]
        constructor
        · intro hcontra
          exact absurd hcontra (addErrorIssue_ne_self _ _ _ _)
        · intro hcontra
          exact absurd hcontra hne
  · intro a refRes rest hrf hne
    have hmm : (resMismatchesAgainst refRes rest).isEmpty = false := by
      cases hml : resMismatchesAgainst refRes rest with
      | nil => exact absurd hml hne
      | cons b l => rfl
    have heq : check_resolution_consistency frames result
        = addErrorIssue result (resMessage (resMismatchesAgainst refRes rest))
            (some "sequence".toList)
            (some [("reference_resolution".toList, .res refRes),
                   ("mismatch_count".toList,
                     .int (resMismatchesAgainst refRes rest).length),
                   ("mismatches".toList,
                     .resMismatchList (resMismatchesAgainst refRes rest))]) := by
      simp only [check_resolution_consistency, hrf, hmm, Bool.false_eq_true, if_false]
    refine ⟨heq, ?_, ?_⟩ <;> simp [heq, addErrorIssue]
  · intro hcfg i hi
    cases hp : parsePattern fp with
    | error e =>
      have hv : validate cfg fs fp
          = addErrorIssue (initialResult fp)
              ("Validation failed: ".toList ++ pyStrInvalidFormatError e)
              (some fp) none := by
        unfold validate
        simp only [hp]
      rw [hv] at hi
      simp only [addErrorIssue, initialResult, List.mem_append] at hi
      rcases hi with hi | hi
      · simp at hi
      · simp only [List.mem_singleton] at hi
        subst hi
        simp [detailKeys]
    | ok pat =>
      by_cases hempty : (scan_all fs pat).isEmpty
      · have hv : validate cfg fs fp
            = addWarningIssue (initialResult fp)
                "No frames found matching pattern".toList (some fp) := by
          unfold validate
          simp only [hp]
          rw [if_pos hempty]
        rw [hv] at hi
        simp only [addWarningIssue, initialResult, List.mem_append] at hi
        rcases hi with hi | hi
        · simp at hi
        · simp only [List.mem_singleton] at hi
          subst hi
          simp [detailKeys]
      · have hv : validate cfg fs fp
            = runChecks cfg (scan_all fs pat)
                (withFrameMetadata (initialResult fp) fs pat) := by
          unfold validate
          simp only [hp]
          rw [if_neg hempty]
        rw [hv] at hi
        rcases runChecks_no_resolution_key cfg _ _ i hcfg hi with hi' | hi'
        · simp [withFrameMetadata, initialResult] at hi'
        · exact hi'

/-- Witness for C7 at two ascending frames whose resolutions differ, and
a validate run with the resolution switch off. -/
theorem C7_witness :
    (check_resolution_consistency
      [⟨1, [], true, true, some (1920, 1080), none, none⟩,
       ⟨2, [], true, true, some (1280, 720), none, none⟩]
      { passed := true }).issues.length = 1 ∧
    (check_resolution_consistency
      [⟨1, [], true, true, some (1920, 1080), none, none⟩,
       ⟨2, [], true, true, some (1280, 720), none, none⟩]
      { passed := true }).passed = false ∧
    (∀ p ∈ (resolutionFrames
        [⟨1, [], true, true, some (1920, 1080), none, none⟩,
         ⟨2, [], true, true, some (1280, 720), none, none⟩]).head?,
      ∀ q ∈ resolutionFrames
        [⟨1, [], true, true, some (1920, 1080), none, none⟩,
         ⟨2, [], true, true, some (1280, 720), none, none⟩], p.1 ≤ q.1) ∧
    (∀ i ∈ (validate { checkResolution := false } emptyFS ("x.%d".toList)).issues,
      "reference_resolution".toList ∉ detailKeys i) := by
  have h := C7_resolution_consistency
    [⟨1, [], true, true, some (1920, 1080), none, none⟩,
     ⟨2, [], true, true, some (1280, 720), none, none⟩]
    { passed := true } { checkResolution := false } emptyFS ("x.%d".toList)
  have h3 := h.2.2.1 1 (1920, 1080) [(2, (1280, 720))] (by decide) (by decide)
  exact ⟨by simp [h3.1, addErrorIssue], h3.2.2, h.1 (by decide), h.2.2.2 rfl⟩

/-! Helper lemmas for the generated-matcher claim. -/

theorem takeWhile_append_sat (p : Char → Bool) (d x : List Char)
    (hd : ∀ c ∈ d, p c) : (d ++ x).takeWhile p = d ++ x.takeWhile p := by
  induction d with
  | nil => simp
  | cons c cs ih =>
    have hc : p c := hd c (List.mem_cons_self c cs)
    simp only [List.cons_append, List.takeWhile_cons, hc, if_true]
    rw [ih (fun c hc' => hd c (List.mem_cons_of_mem _ hc'))]

theorem dropWhile_append_sat (p : Char → Bool) (d x : List Char)
    (hd : ∀ c ∈ d, p c) : (d ++ x).dropWhile p = x.dropWhile p := by
  induction d with
  | nil => simp
  | cons c cs ih =>
    have hc : p c := hd c (List.mem_cons_self c cs)
    simp only [List.cons_append, List.dropWhile_cons, hc, if_true]
    exact ih (fun c hc' => hd c (List.mem_cons_of_mem _ hc'))

theorem tryGroup_sound (ext : List Char) (revds after g : List Char)
    (h : tryGroup ext revds after = some g) :
    g ≠ [] ∧ (∀ c ∈ g, c ∈ revds) ∧
    ∃ t, revds.reverse ++ after = g ++ ext ++ t := by
  induction revds generalizing after with
  | nil => simp [tryGroup] at h
  | cons d rest ih =>
    unfold tryGroup at h
    by_cases hpre : ext.isPrefixOf after
    · rw [if_pos hpre] at h
      obtain ⟨t, ht⟩ := (isPrefixOf_iff_append ext after).mp hpre
      cases h
      refine ⟨by simp, fun c hc => List.mem_reverse.mp hc, t, ?_⟩
      rw [ht, List.append_assoc]
    · rw [if_neg hpre] at h
      obtain ⟨hne, hmem, t, ht⟩ := ih (d :: after) h
      refine ⟨hne, fun c hc => List.mem_cons_of_mem d (hmem c hc), t, ?_⟩
      rw [List.reverse_cons, List.append_assoc]
      simpa using ht

theorem take_succ_shift (d : Char) (rest after : List Char) (i : Nat) :
    ((d :: rest).take (i + 1)).reverse ++ after
      = (rest.take i).reverse ++ (d :: after) := by
  simp [List.take_succ_cons, List.reverse_cons, List.append_assoc]

theorem tryGroup_isSome_iff (ext revds after : List Char) :
    (tryGroup ext revds after).isSome = true ↔
      ∃ i, i < revds.length ∧
        ext.isPrefixOf ((revds.take i).reverse ++ after) = true := by
  induction revds generalizing after with
  | nil => simp [tryGroup]
  | cons d rest ih =>
    unfold tryGroup
    by_cases hpre : ext.isPrefixOf after
    · simp only [if_pos hpre, Option.isSome_some, true_iff]
      exact ⟨0, by simp, by simpa using hpre⟩
    · rw [if_neg hpre, ih (d :: after)]
      constructor
      · rintro ⟨i, hi, hp⟩
        refine ⟨i + 1, by simpa using Nat.succ_lt_succ hi, ?_⟩
        rw [take_succ_shift]
        exact hp
      · rintro ⟨i, hi, hp⟩
        cases i with
        | zero =>
          simp only [List.take_zero, List.reverse_nil, List.nil_append] at hp
          exact absurd hp hpre
        | succ i' =>
          refine ⟨i', by simpa using Nat.lt_of_succ_lt_succ hi, ?_⟩
          rw [take_succ_shift] at hp
          exact hp

theorem tryGroup_longest (ext revds after g : List Char)
    (h : tryGroup ext revds after = some g) :
    ∀ i, i < revds.length →
      ext.isPrefixOf ((revds.take i).reverse ++ after) = true →
      revds.length - i ≤ g.length := by
  induction revds generalizing after with
  | nil => simp [tryGroup] at h
  | cons d rest ih =>
    unfold tryGroup at h
    by_cases hpre : ext.isPrefixOf after
    · rw [if_pos hpre] at h
      cases h
      intro i hi hp
      simp only [List.length_reverse, List.length_cons]
      omega
    · rw [if_neg hpre] at h
      intro i hi hp
      cases i with
      | zero =>
        simp only [List.take_zero, List.reverse_nil, List.nil_append] at hp
        exact absurd hp hpre
      | succ i' =>
        rw [take_succ_shift] at hp
        have hlen := ih (d :: after) h i'
          (by simpa using Nat.lt_of_succ_lt_succ hi) hp
        simp only [List.length_cons]
        omega

theorem drop_append_self (a b : List Char) : (a ++ b).drop a.length = b :=
  List.drop_left a b

theorem frameRegexMatch_some (base ext name g : List Char)
    (h : frameRegexMatch base ext name = some g) :
    g ≠ [] ∧ (∀ c ∈ g, c.isDigit) ∧ ∃ t, name = base ++ g ++ ext ++ t := by
  unfold frameRegexMatch at h
  by_cases hb : base.isPrefixOf name
  · rw [if_pos hb] at h
    obtain ⟨t0, ht0⟩ := (isPrefixOf_iff_append base name).mp hb
    have hrest : name.drop base.length = t0 := by
      rw [ht0]
      exact drop_append_self base t0
    obtain ⟨hne, hmem, t, ht⟩ := tryGroup_sound ext _ _ g h
    rw [List.reverse_reverse, List.takeWhile_append_dropWhile] at ht
    refine ⟨hne, ?_, t, ?_⟩
    · intro c hc
      exact List.mem_takeWhile_imp (List.mem_reverse.mp (hmem c hc))
    · have hx : name = base ++ name.drop base.length := by
        rw [hrest, ht0]
      rw [hx, ht]
      simp [List.append_assoc]
  · rw [if_neg hb] at h
    exact Option.noConfusion h

theorem frameRegexMatch_isSome_iff (base ext name : List Char) :
    (frameRegexMatch base ext name).isSome = true ↔
      ∃ d t, d ≠ [] ∧ (∀ c ∈ d, c.isDigit) ∧ name = base ++ d ++ ext ++ t := by
  constructor
  · intro h
    obtain ⟨g, hg⟩ := Option.isSome_iff_exists.mp h
    obtain ⟨hne, hdig, t, ht⟩ := frameRegexMatch_some base ext name g hg
    exact ⟨g, t, hne, hdig, ht⟩
  · rintro ⟨d, t, hne, hdig, heq⟩
    have heq' : name = base ++ (d ++ (ext ++ t)) := by
      rw [heq]
      simp [List.append_assoc]
    have hb : base.isPrefixOf name = true :=
      (isPrefixOf_iff_append base name).mpr ⟨d ++ (ext ++ t), heq'⟩
    have hrest : name.drop base.length = d ++ (ext ++ t) := by
      rw [heq']
      exact drop_append_self _ _
    have hds : (name.drop base.length).takeWhile Char.isDigit
        = d ++ (ext ++ t).takeWhile Char.isDigit := by
      rw [hrest]
      exact takeWhile_append_sat _ d (ext ++ t) hdig
    have hdrop : (name.drop base.length).dropWhile Char.isDigit
        = (ext ++ t).dropWhile Char.isDigit := by
      rw [hrest]
      exact dropWhile_append_sat _ d (ext ++ t) hdig
    unfold frameRegexMatch
    rw [if_pos hb, tryGroup_isSome_iff]
    refine ⟨((ext ++ t).takeWhile Char.isDigit).length, ?_, ?_⟩
    · rw [List.length_reverse, hds, List.length_append]
      have hd : 0 < d.length := List.length_pos.mpr hne
      omega
    · have htake : (((name.drop base.length).takeWhile Char.isDigit).reverse.take
          ((ext ++ t).takeWhile Char.isDigit).length).reverse
          = (ext ++ t).takeWhile Char.isDigit := by
        rw [hds, List.reverse_append]
        rw [show ((ext ++ t).takeWhile Char.isDigit).length
            = ((ext ++ t).takeWhile Char.isDigit).reverse.length from
          (List.length_reverse _).symm]
        rw [List.take_left]
        exact List.reverse_reverse _
      rw [htake, hdrop, List.takeWhile_append_dropWhile]
      exact (isPrefixOf_iff_append ext (ext ++ t)).mpr ⟨t, rfl⟩

theorem frameRegexMatch_longest (base ext name g : List Char)
    (h : frameRegexMatch base ext name = some g) (d t : List Char) (hne : d ≠ [])
    (hdig : ∀ c ∈ d, c.isDigit) (heq : name = base ++ d ++ ext ++ t) :
    d.length ≤ g.length := by
  unfold frameRegexMatch at h
  by_cases hb : base.isPrefixOf name
  · rw [if_pos hb] at h
    have heq' : name = base ++ (d ++ (ext ++ t)) := by
      rw [heq]
      simp [List.append_assoc]
    have hrest : name.drop base.length = d ++ (ext ++ t) := by
      rw [heq']
      exact drop_append_self _ _
    have hds : (name.drop base.length).takeWhile Char.isDigit
        = d ++ (ext ++ t).takeWhile Char.isDigit := by
      rw [hrest]
      exact takeWhile_append_sat _ d (ext ++ t) hdig
    have hdrop : (name.drop base.length).dropWhile Char.isDigit
        = (ext ++ t).dropWhile Char.isDigit := by
      rw [hrest]
      exact dropWhile_append_sat _ d (ext ++ t) hdig
    have htake : (((name.drop base.length).takeWhile Char.isDigit).reverse.take
        ((ext ++ t).takeWhile Char.isDigit).length).reverse
        = (ext ++ t).takeWhile Char.isDigit := by
      rw [hds, List.reverse_append]
      rw [show ((ext ++ t).takeWhile Char.isDigit).length
          = ((ext ++ t).takeWhile Char.isDigit).reverse.length from
        (List.length_reverse _).symm]
      rw [List.take_left]
      exact List.reverse_reverse _
    have hi : ((ext ++ t).takeWhile Char.isDigit).length
        < ((name.drop base.length).takeWhile Char.isDigit).reverse.length := by
      rw [List.length_reverse, hds, List.length_append]
      have hd : 0 < d.length := List.length_pos.mpr hne
      omega
    have hp : ext.isPrefixOf
        ((((name.drop base.length).takeWhile Char.isDigit).reverse.take
          ((ext ++ t).takeWhile Char.isDigit).length).reverse
          ++ (name.drop base.length).dropWhile Char.isDigit) = true := by
      rw [htake, hdrop, List.takeWhile_append_dropWhile]
      exact (isPrefixOf_iff_append ext (ext ++ t)).mpr ⟨t, rfl⟩
    have hlong := tryGroup_longest ext _ _ g h
      ((ext ++ t).takeWhile Char.isDigit).length hi hp
    rw [List.length_reverse, hds, List.length_append] at hlong
    omega
  · rw [if_neg hb] at h
    exact Option.noConfusion h

/-! Claim C3. -/

/-- Counterexample to C3 as stated: the matcher is not anchored at the
end of the filename; it accepts shot.1001.exr.bak for the pattern parts
shot. and .exr, extracting frame 1001, although the filename does not
consist exactly of the base name, a digit run, and the extension. -/
theorem C3_counterexample :
    frameRegexMatch ("shot.".toList) (".exr".toList) ("shot.1001.exr.bak".toList)
      = some ("1001".toList) ∧
    "shot.1001.exr.bak".toList
      ≠ "shot.".toList ++ "1001".toList ++ ".exr".toList := by
  exact ⟨rfl, by decide⟩

/-- C3 amended: the generated matcher is anchored at the start of the
filename but not at its end: it accepts a filename iff the filename is
the literal base name, then a nonempty contiguous digit run, then the
literal extension, then an arbitrary (possibly empty) trailing string;
the extracted digit group is such a digit run, namely the longest one. -/
theorem C3_matcher_start_anchored (base ext name : List Char) :
    ((frameRegexMatch base ext name).isSome = true ↔
      ∃ d t, d ≠ [] ∧ (∀ c ∈ d, c.isDigit) ∧ name = base ++ d ++ ext ++ t) ∧
    (∀ g, frameRegexMatch base ext name = some g →
      g ≠ [] ∧ (∀ c ∈ g, c.isDigit) ∧ (∃ t, name = base ++ g ++ ext ++ t) ∧
      ∀ d t, d ≠ [] → (∀ c ∈ d, c.isDigit) → name = base ++ d ++ ext ++ t →
        d.length ≤ g.length) := by
  refine ⟨frameRegexMatch_isSome_iff base ext name, fun g hg => ?_⟩
  obtain ⟨hne, hdig, t, ht⟩ := frameRegexMatch_some base ext name g hg
  exact ⟨hne, hdig, ⟨t, ht⟩,
    fun d t' hne' hdig' heq' => frameRegexMatch_longest base ext name g hg d t' hne' hdig' heq'⟩

/-- Witness for C3 amended at the filename shot.1001.exr: the captured
group is the digit run 1001 and it decomposes the filename with an empty
trailing string. -/
theorem C3_witness :
    "1001".toList ≠ [] ∧ (∀ c ∈ "1001".toList, c.isDigit) ∧
    (∃ t, "shot.1001.exr".toList
      = "shot.".toList ++ "1001".toList ++ ".exr".toList ++ t) := by
  have h := (C3_matcher_start_anchored ("shot.".toList) (".exr".toList)
    ("shot.1001.exr".toList)).2 ("1001".toList) rfl
  exact ⟨h.1, h.2.1, h.2.2.1⟩

end VfxVox
